import Mathlib

/-!
Verification of the security-policy and protocol-response logic of the
pion-style TURN relay example (`examples/turn-server/perm-filter/main.go`
and the internal STUN binding responder).

The Go source is shallowly embedded: addresses are represented by their
textual form, `net.IP` values by their byte sequences, STUN messages by
byte lists, and the credential map by a lookup function built by a fold.
-/

namespace TurnPermFilter

/-! ## Peer Admission Policy (PermissionHandler)

The Go source:
```
PermissionHandler: func(clientAddr net.Addr, peerIP net.IP) bool {
    clientIP := strings.SplitN(clientAddr.String(), ":", 2)
    if clientIP[0] != peerIP.String() {
        log.Printf(...); return false
    }
    log.Printf(...); return true
}
```
`clientAddr` enters only through `clientAddr.String()` and `peerIP` only
through `peerIP.String()`, so both are embedded as strings.
-/

/-- Go's `strings.SplitN(s, ":", 2)`: if `s` contains no `':'` the result is
`[s]`; otherwise it is the part before the first `':'` followed by the
rest after that `':'`. -/
def splitN2Colon (s : List Char) : List (List Char) :=
  match s.dropWhile (fun c => c ≠ ':') with
  | [] => [s]
  | _ :: after => [s.takeWhile (fun c => c ≠ ':'), after]

/-- The permission handler of the example: split the client address on the
first `':'`, compare the first component with the peer IP's textual form. -/
def permissionHandler (clientAddr peerIP : String) : Bool :=
  let clientIP := splitN2Colon clientAddr.toList
  if clientIP.headD [] ≠ peerIP.toList then false else true

/-- The host component as the spec words it: the substring of the textual
form before the first `':'` (the whole string when there is no `':'`). -/
def hostComponent (s : String) : String :=
  String.mk (s.toList.takeWhile (fun c => c ≠ ':'))

theorem splitN2Colon_headD (s : List Char) :
    (splitN2Colon s).headD [] = s.takeWhile (fun c => c ≠ ':') := by
  unfold splitN2Colon
  cases h : s.dropWhile (fun c => c ≠ ':') with
  | nil =>
      have hs := List.takeWhile_append_dropWhile (p := fun c => c ≠ ':') (l := s)
      rw [h, List.append_nil] at hs
      simpa using hs.symm
  | cons a t => simp

/-- C1: the permission handler grants iff the host component of the
client address (the substring before the first `':'`) is exactly the
textual form of the peer IP. -/
theorem permissionHandler_grants_iff (clientAddr peerIP : String) :
    permissionHandler clientAddr peerIP = true ↔
      hostComponent clientAddr = peerIP := by
  show (if (splitN2Colon clientAddr.toList).headD [] ≠ peerIP.toList then false
      else true) = true ↔ _
  rw [splitN2Colon_headD]
  unfold hostComponent
  constructor
  · intro hgrant
    by_cases hq : clientAddr.toList.takeWhile (fun c => c ≠ ':') = peerIP.toList
    · calc String.mk (clientAddr.toList.takeWhile (fun c => c ≠ ':'))
          = String.mk peerIP.toList := by rw [hq]
        _ = peerIP := rfl
    · rw [if_pos hq] at hgrant
      exact absurd hgrant (by decide)
  · intro h
    have hq : clientAddr.toList.takeWhile (fun c => c ≠ ':') = peerIP.toList :=
      congrArg String.toList h
    rw [if_neg (not_not_intro hq)]

/-- C6: on a client address with no `':'` the whole string is the host,
so the handler degrades to direct string comparison; the handler is a
total boolean function, so it cannot crash or error. -/
theorem permissionHandler_no_colon (clientAddr peerIP : String)
    (h : ':' ∉ clientAddr.toList) :
    permissionHandler clientAddr peerIP = decide (clientAddr = peerIP) := by
  have htake : hostComponent clientAddr = clientAddr := by
    unfold hostComponent
    have ht : clientAddr.toList.takeWhile (fun c => c ≠ ':') = clientAddr.toList :=
      List.takeWhile_eq_self_iff.mpr (fun x hx => by
        simp only [ne_eq, decide_eq_true_eq]
        exact fun hcol => h (hcol ▸ hx))
    rw [ht]
    rfl
  by_cases he : clientAddr = peerIP
  · have hg := (permissionHandler_grants_iff clientAddr peerIP).mpr (htake.trans he)
    rw [hg]
    simp [he]
  · have hg : permissionHandler clientAddr peerIP ≠ true := fun hh =>
      he (htake.symm.trans ((permissionHandler_grants_iff clientAddr peerIP).mp hh))
    simp only [he, decide_eq_true_eq, decide_eq_false_iff_not]
    simpa using hg

/-- Witness for C6 at a concrete colon-free input. -/
theorem permissionHandler_no_colon_witness :
    (':' ∉ "localhost".toList) ∧
      permissionHandler "localhost" "localhost" = decide ("localhost" = "localhost") :=
  ⟨by decide, permissionHandler_no_colon "localhost" "localhost" (by decide)⟩

/-! ## Credential Index (usersMap build and AuthHandler)

The Go source:
```
usersMap := map[string][]byte{}
for _, kv := range regexp.MustCompile(`(\w+)=(\w+)`).FindAllStringSubmatch(*users, -1) {
    usersMap[kv[1]] = turn.GenerateAuthKey(kv[1], *realm, kv[2])
}
```
`FindAllStringSubmatch` with the pattern `(\w+)=(\w+)` is embedded as a
left-to-right scanner: at each position it tries to match a maximal
nonempty run of word characters, a literal `'='` and a second maximal
nonempty run, emits the two captured runs and resumes after the match;
on failure it advances one character.  (With greedy `\w+` and word
characters disjoint from `'='`, the regex matches at a position exactly
when the maximal run from that position is followed by `'='` and a word
character, so this scanner computes the same match list.)
-/

/-- A Go regexp `\w` word character: `[0-9A-Za-z_]`. -/
def isWordChar (c : Char) : Bool := c.isAlphanum || c = '_'

/-- Try to match `(\w+)=(\w+)` anchored at the start of `s`: on success
return both captures and the remainder of the input after the match. -/
def tryMatch (s : List Char) : Option (String × String × List Char) :=
  match s.takeWhile isWordChar, s.dropWhile isWordChar with
  | _ :: _, '=' :: d :: r2 =>
      if isWordChar d then
        some ((s.takeWhile isWordChar).asString,
          ((d :: r2).takeWhile isWordChar).asString,
          (d :: r2).dropWhile isWordChar)
      else none
  | _, _ => none

/-- One scan step per unit of fuel; `fuel ≥ s.length` is always enough
because both continuations are strictly shorter than the input. -/
def findPairsGo (fuel : Nat) (s : List Char) : List (String × String) :=
  match fuel, s with
  | 0, _ => []
  | _ + 1, [] => []
  | fuel + 1, c :: cs =>
    match tryMatch (c :: cs) with
    | some (a, b, rem) => (a, b) :: findPairsGo fuel rem
    | none => findPairsGo fuel cs

/-- All non-overlapping matches of `(\w+)=(\w+)`, leftmost first
(`FindAllStringSubmatch(s, -1)`, keeping the two capture groups). -/
def findPairs (s : List Char) : List (String × String) :=
  findPairsGo s.length s

theorem dropWhile_length_le (p : Char → Bool) (l : List Char) :
    (l.dropWhile p).length ≤ l.length := by
  induction l with
  | nil => simp
  | cons a t ih =>
      rw [List.dropWhile_cons]
      by_cases h : p a
      · simp only [h, if_true]
        exact Nat.le_trans ih (Nat.le_succ _)
      · simp [h]

theorem tryMatch_rem_length {s rem : List Char} {a b : String}
    (h : tryMatch s = some (a, b, rem)) : rem.length < s.length := by
  unfold tryMatch at h
  split at h
  next u hu v d r2 htake hdrop =>
    split at h
    · simp only [Option.some.injEq, Prod.mk.injEq] at h
      obtain ⟨h1, h2, h3⟩ := h
      subst h3
      have hd1 : ((d :: r2).dropWhile isWordChar).length ≤ r2.length + 1 :=
        dropWhile_length_le _ _
      have hd2 : ('=' :: d :: r2).length ≤ s.length := by
        rw [← hdrop]
        exact dropWhile_length_le _ _
      simp only [List.length_cons] at hd1 hd2 ⊢
      omega
    · exact absurd h (by simp)
  next => exact absurd h (by simp)

theorem findPairsGo_fuel (fuel fuel' : Nat) (s : List Char)
    (h : s.length ≤ fuel) (h' : s.length ≤ fuel') :
    findPairsGo fuel s = findPairsGo fuel' s := by
  induction fuel using Nat.strong_induction_on generalizing s fuel' with
  | _ fuel ih =>
    cases s with
    | nil => cases fuel <;> cases fuel' <;> rfl
    | cons c cs =>
      cases fuel with
      | zero => simp at h
      | succ f =>
        cases fuel' with
        | zero => simp at h'
        | succ f' =>
          simp only [findPairsGo]
          simp only [List.length_cons] at h h'
          cases hm : tryMatch (c :: cs) with
          | none =>
              exact ih f (Nat.lt_succ_self _) f' cs (by omega) (by omega)
          | some x =>
              obtain ⟨a, b, rem⟩ := x
              have hr := tryMatch_rem_length hm
              simp only [List.length_cons] at hr
              dsimp only
              rw [ih f (Nat.lt_succ_self _) f' rem (by omega) (by omega)]

theorem findPairs_cons (c : Char) (cs : List Char) :
    findPairs (c :: cs) =
      match tryMatch (c :: cs) with
      | some (a, b, rem) => (a, b) :: findPairs rem
      | none => findPairs cs := by
  unfold findPairs
  simp only [List.length_cons, findPairsGo]
  cases hm : tryMatch (c :: cs) with
  | none => rfl
  | some x =>
      obtain ⟨a, b, rem⟩ := x
      have hr := tryMatch_rem_length hm
      simp only [List.length_cons] at hr
      dsimp only
      rw [findPairsGo_fuel cs.length rem.length rem (by omega) (Nat.le_refl _)]

theorem tryMatch_not_word (c : Char) (cs : List Char) (h : isWordChar c = false) :
    tryMatch (c :: cs) = none := by
  unfold tryMatch
  split
  next htake hdrop =>
    rw [List.takeWhile_cons_of_neg (by simp [h])] at htake
    exact absurd htake (by simp)
  next => rfl

/-- The separator `'='` is not a word character, so a word run stops there. -/
theorem isWordChar_eq_false : isWordChar '=' = false := by decide

theorem tryMatch_success (u p t : List Char) (hu : u ≠ [])
    (huw : ∀ x ∈ u, isWordChar x) (hp : p ≠ []) (hpw : ∀ x ∈ p, isWordChar x)
    (ht : t.takeWhile isWordChar = []) :
    tryMatch (u ++ ('=' :: (p ++ t))) = some (u.asString, p.asString, t) := by
  have htdrop : t.dropWhile isWordChar = t := by
    have hh := List.takeWhile_append_dropWhile (p := isWordChar) (l := t)
    rw [ht] at hh
    simpa using hh
  have htake : (u ++ ('=' :: (p ++ t))).takeWhile isWordChar = u := by
    rw [List.takeWhile_append_of_pos huw,
      List.takeWhile_cons_of_neg (by simp [isWordChar_eq_false]), List.append_nil]
  have hdrop : (u ++ ('=' :: (p ++ t))).dropWhile isWordChar = '=' :: (p ++ t) := by
    rw [List.dropWhile_append_of_pos huw,
      List.dropWhile_cons_of_neg (by simp [isWordChar_eq_false])]
  have htake2 : (p ++ t).takeWhile isWordChar = p := by
    rw [List.takeWhile_append_of_pos hpw, ht, List.append_nil]
  have hdrop2 : (p ++ t).dropWhile isWordChar = t := by
    rw [List.dropWhile_append_of_pos hpw, htdrop]
  obtain ⟨u0, u1, rfl⟩ : ∃ u0 u1, u = u0 :: u1 := by
    cases u with
    | nil => exact absurd rfl hu
    | cons u0 u1 => exact ⟨u0, u1, rfl⟩
  obtain ⟨p0, p1, rfl⟩ : ∃ p0 p1, p = p0 :: p1 := by
    cases p with
    | nil => exact absurd rfl hp
    | cons p0 p1 => exact ⟨p0, p1, rfl⟩
  have hp0 : isWordChar p0 = true := hpw p0 (by simp)
  have hcons : (p0 :: p1) ++ t = p0 :: (p1 ++ t) := by simp
  unfold tryMatch
  split
  next x1 x2 d r2 htake' hdrop' =>
    rw [htake] at htake'
    rw [hdrop, hcons] at hdrop'
    injection hdrop' with he hdrop'
    injection hdrop' with hd hr2
    subst hd
    subst hr2
    rw [htake, ← hcons, htake2, hdrop2]
    simp only [if_pos hp0]
  next hmiss =>
    exact absurd (hmiss u0 u1 p0 (p1 ++ t) (by rw [htake]) (by rw [hdrop, hcons]))
      (by simp)

/-- A successful anchored match contributes its captures and scanning
resumes after the match. -/
theorem findPairs_match (u p t : List Char) (hu : u ≠ [])
    (huw : ∀ x ∈ u, isWordChar x) (hp : p ≠ []) (hpw : ∀ x ∈ p, isWordChar x)
    (ht : t.takeWhile isWordChar = []) :
    findPairs (u ++ ('=' :: (p ++ t))) =
      (u.asString, p.asString) :: findPairs t := by
  obtain ⟨u0, u1, rfl⟩ : ∃ u0 u1, u = u0 :: u1 := by
    cases u with
    | nil => exact absurd rfl hu
    | cons u0 u1 => exact ⟨u0, u1, rfl⟩
  rw [show (u0 :: u1) ++ ('=' :: (p ++ t)) = u0 :: (u1 ++ ('=' :: (p ++ t))) by simp,
    findPairs_cons]
  rw [show u0 :: (u1 ++ ('=' :: (p ++ t))) = (u0 :: u1) ++ ('=' :: (p ++ t)) by simp,
    tryMatch_success (u0 :: u1) p t hu huw hp hpw ht]

/-- A position that starts with a non-word character cannot start a match,
so the scan just advances. -/
theorem findPairs_skip (c : Char) (cs : List Char) (h : isWordChar c = false) :
    findPairs (c :: cs) = findPairs cs := by
  rw [findPairs_cons, tryMatch_not_word c cs h]

/-- Modelled from the spec: `turn.GenerateAuthKey` (in the library, not
under `src/`) is the long-term-credential key derivation, a pure
deterministic function of (username, realm, password); it is modelled as
the canonical `username:realm:password` encoding of the triple. -/
def generateAuthKey (username realm password : String) : String :=
  username ++ ":" ++ realm ++ ":" ++ password

/-- The `usersMap` built by the example's configuration loop: fold over
the matched pairs in order, inserting the derived key for the first
capture (a later insert for the same username overwrites an earlier one,
as for a Go map). -/
def usersMap (users realm : String) : String → Option String :=
  (findPairs users.toList).foldl
    (fun m kv q => if q = kv.1 then some (generateAuthKey kv.1 realm kv.2) else m q)
    (fun _ => none)

/-- The example's `AuthHandler` callback: return the cached key for a
known username, and `(nil, false)` for an unknown one. -/
def authHandler (users realm : String) (username : String) :
    Option String × Bool :=
  match usersMap users realm username with
  | some key => (some key, true)
  | none => (none, false)

theorem foldl_insert_lookup (realm : String) (l : List (String × String))
    (m : String → Option String) (q : String) :
    (l.foldl
        (fun m kv q => if q = kv.1 then some (generateAuthKey kv.1 realm kv.2)
          else m q)
        m) q =
      match l.reverse.find? (fun kv => kv.1 == q) with
      | some kv => some (generateAuthKey kv.1 realm kv.2)
      | none => m q := by
  induction l generalizing m with
  | nil => rfl
  | cons kv t ih =>
      rw [List.foldl_cons, ih, List.reverse_cons, List.find?_append]
      cases hf : t.reverse.find? (fun kv => kv.1 == q) with
      | some kv' => rfl
      | none =>
          simp only [Option.none_or, List.find?_cons, List.find?_nil]
          by_cases he : kv.1 = q
          · simp [he]
          · have : (kv.1 == q) = false := by simpa using he
            simp [this, Ne.symm he]

/-- The credential map lookup is the key derived from the last matched
pair carrying the queried username (and `none` if there is none). -/
theorem usersMap_lookup (users realm q : String) :
    usersMap users realm q =
      match (findPairs users.toList).reverse.find? (fun kv => kv.1 == q) with
      | some kv => some (generateAuthKey kv.1 realm kv.2)
      | none => none := by
  unfold usersMap
  rw [foldl_insert_lookup]

theorem getLast?_filter_eq_find?_reverse (p : String × String → Bool)
    (l : List (String × String)) :
    (l.filter p).getLast? = l.reverse.find? p := by
  rw [List.getLast?_eq_head?_reverse, ← List.filter_reverse]
  generalize l.reverse = r
  induction r with
  | nil => rfl
  | cons a t ih =>
      by_cases h : p a <;> simp [List.filter_cons, List.find?_cons, h, ih]

/-- C7: the credential index maps a username to the key derived from the
last matched `username=password` pair carrying it (last write wins). -/
theorem usersMap_last_write_wins (users realm u : String) :
    usersMap users realm u =
      (((findPairs users.toList).filter (fun kv => kv.1 == u)).getLast?).map
        (fun kv => generateAuthKey kv.1 realm kv.2) := by
  rw [usersMap_lookup, getLast?_filter_eq_find?_reverse]
  cases h : (findPairs users.toList).reverse.find? (fun kv => kv.1 == u) <;> simp

/-- A username occurring in any matched pair is present in the credential
index, bound to the key derived from one of its matched pairs. -/
theorem usersMap_mem_isSome (users realm u p : String)
    (hmem : (u, p) ∈ findPairs users.toList) :
    ∃ p', (u, p') ∈ findPairs users.toList ∧
      usersMap users realm u = some (generateAuthKey u realm p') := by
  have hfm : (u, p) ∈ (findPairs users.toList).filter (fun kv => kv.1 == u) :=
    List.mem_filter.mpr ⟨hmem, by simp⟩
  have hne : (findPairs users.toList).filter (fun kv => kv.1 == u) ≠ [] :=
    List.ne_nil_of_mem hfm
  set f := (findPairs users.toList).filter (fun kv => kv.1 == u) with hfdef
  obtain ⟨kv, hkv⟩ : ∃ kv, f.getLast? = some kv :=
    ⟨f.getLast hne, List.getLast?_eq_getLast f hne⟩
  have hkvf : kv ∈ f := by
    have hgl := List.getLast?_eq_getLast f hne
    rw [hkv] at hgl
    have hkg : kv = f.getLast hne := by injection hgl
    rw [hkg]
    exact List.getLast_mem hne
  have hkvl : kv ∈ findPairs users.toList := (List.mem_filter.mp hkvf).1
  have hkv1 : kv.1 = u := by
    have := (List.mem_filter.mp hkvf).2
    simpa using this
  refine ⟨kv.2, ?_, ?_⟩
  · rw [← hkv1]
    exact hkvl
  · rw [usersMap_last_write_wins, ← hfdef, hkv]
    simp [hkv1]

/-- C3: every matched `\w+=\w+` pair is indexed under its username with a
key derived from a matched pair's password, and malformed entries such as
`foo=`, `=bar` and a bare `foo` are dropped without failing the build. -/
theorem usersMap_inserts_matched_pairs :
    (∀ users realm u p, (u, p) ∈ findPairs users.toList →
      ∃ p', (u, p') ∈ findPairs users.toList ∧
        usersMap users realm u = some (generateAuthKey u realm p')) ∧
    (∀ realm q, usersMap "foo=,=bar,foo" realm q = none) := by
  constructor
  · exact fun users realm u p hmem => usersMap_mem_isSome users realm u p hmem
  · intro realm q
    have h0 : findPairs (String.toList "foo=,=bar,foo") = [] := by decide
    unfold usersMap
    rw [h0]
    rfl

/-- Witness for C3 at a concrete configuration string. -/
theorem usersMap_inserts_matched_pairs_witness :
    (("user1", "pass1") ∈ findPairs (String.toList "user1=pass1,user2=pass2")) ∧
      ∃ p', (("user1", p') ∈ findPairs (String.toList "user1=pass1,user2=pass2")) ∧
        usersMap "user1=pass1,user2=pass2" "pion.ly" "user1" =
          some (generateAuthKey "user1" "pion.ly" p') :=
  ⟨by decide, usersMap_inserts_matched_pairs.1 "user1=pass1,user2=pass2" "pion.ly"
    "user1" "pass1" (by decide)⟩

theorem generateAuthKey_length_pos (a r b : String) :
    0 < (generateAuthKey a r b).length := by
  simp only [generateAuthKey, String.length_append,
    show (":" : String).length = 1 from rfl]
  omega

/-- C5: the auth handler returns `(key, true)` exactly for usernames in
the credential map, `(nil, false)` for unknown ones, and any key it
returns as valid is nonempty. -/
theorem authHandler_spec (users realm username : String) :
    (∀ k, usersMap users realm username = some k →
        authHandler users realm username = (some k, true)) ∧
    (usersMap users realm username = none →
        authHandler users realm username = (none, false)) ∧
    (∀ k, (authHandler users realm username).1 = some k → 0 < k.length) := by
  refine ⟨?_, ?_, ?_⟩
  · intro k h
    unfold authHandler
    rw [h]
  · intro h
    unfold authHandler
    rw [h]
  · intro k hk
    unfold authHandler at hk
    cases h : usersMap users realm username with
    | none => rw [h] at hk; simp at hk
    | some key =>
        rw [h] at hk
        simp only at hk
        have hkey : key = k := by simpa using hk
        have hl := usersMap_lookup users realm username
        rw [h] at hl
        cases hf : (findPairs users.toList).reverse.find?
            (fun kv => kv.1 == username) with
        | none => rw [hf] at hl; simp at hl
        | some kv =>
            rw [hf] at hl
            simp only [Option.some.injEq] at hl
            rw [← hkey, hl]
            exact generateAuthKey_length_pos _ _ _

/-- Witness for C5: a present and an absent username at a concrete
configuration. -/
theorem authHandler_spec_witness :
    (usersMap "user1=pass1" "pion.ly" "user1" =
        some (generateAuthKey "user1" "pion.ly" "pass1") ∧
      authHandler "user1=pass1" "pion.ly" "user1" =
        (some (generateAuthKey "user1" "pion.ly" "pass1"), true)) ∧
    (usersMap "user1=pass1" "pion.ly" "nonexistent" = none ∧
      authHandler "user1=pass1" "pion.ly" "nonexistent" = (none, false)) :=
  ⟨⟨by decide, (authHandler_spec "user1=pass1" "pion.ly" "user1").1 _ (by decide)⟩,
    ⟨by decide, (authHandler_spec "user1=pass1" "pion.ly" "nonexistent").2.1
      (by decide)⟩⟩

/-- A gap is inert before `rest` when no anchored match starts at any of
its positions (so the scan walks through it without emitting a pair).
This is the exact condition under which a stretch of configuration text
contributes nothing; it is a boolean check, so concrete gaps are verified
by evaluation. -/
def gapInert (g rest : List Char) : Bool :=
  (List.range g.length).all (fun i => tryMatch (g.drop i ++ rest) == none)

theorem gapInert_iff (g rest : List Char) :
    gapInert g rest = true ↔
      ∀ i, i < g.length → tryMatch (g.drop i ++ rest) = none := by
  unfold gapInert
  rw [List.all_eq_true]
  constructor
  · intro h i hi
    have := h i (List.mem_range.mpr hi)
    simpa using this
  · intro h i hi
    simpa using h i (List.mem_range.mp hi)

/-- Scanning an inert gap reaches `rest` without emitting anything. -/
theorem findPairs_gap (g rest : List Char)
    (hg : ∀ i, i < g.length → tryMatch (g.drop i ++ rest) = none) :
    findPairs (g ++ rest) = findPairs rest := by
  induction g with
  | nil => rw [List.nil_append]
  | cons c g' ih =>
      rw [List.cons_append, findPairs_cons]
      have h0 : tryMatch (c :: (g' ++ rest)) = none := by
        have hh := hg 0 (by simp)
        simpa using hh
      rw [h0]
      exact ih (fun i hi => by
        have hh := hg (i + 1) (by simpa using Nat.succ_lt_succ hi)
        simpa using hh)

/-- A configuration assembled from gap/username/password segments followed
by a trailing gap: `g₁ u₁=p₁ g₂ u₂=p₂ … gₙ uₙ=pₙ gLast`. -/
def assemble : List (List Char × List Char × List Char) → List Char → List Char
  | [], gLast => gLast
  | (g, u, p) :: rest, gLast => g ++ (u ++ ('=' :: (p ++ assemble rest gLast)))

/-- Well-formedness of a decomposition: usernames and passwords are
nonempty word runs, each password run is maximal (what follows starts
with a non-word character or is empty), every gap is inert where it
stands, and the trailing gap contains no match.  All conditions are
decidable. -/
def segsOK : List (List Char × List Char × List Char) → List Char → Bool
  | [], gLast => gapInert gLast []
  | (g, u, p) :: rest, gLast =>
      (!u.isEmpty) &&
        ((u.all isWordChar) &&
          ((!p.isEmpty) &&
            ((p.all isWordChar) &&
              ((((assemble rest gLast).takeWhile isWordChar).isEmpty) &&
                ((gapInert g (u ++ ('=' :: (p ++ assemble rest gLast)))) &&
                  segsOK rest gLast)))))

theorem findPairs_assemble (segs : List (List Char × List Char × List Char))
    (gLast : List Char) (h : segsOK segs gLast = true) :
    findPairs (assemble segs gLast) =
      segs.map (fun s => (s.2.1.asString, s.2.2.asString)) := by
  induction segs with
  | nil =>
      have hg := (gapInert_iff gLast []).mp h
      have hfp := findPairs_gap gLast [] hg
      rw [List.append_nil] at hfp
      simpa [assemble] using hfp
  | cons s rest ih =>
      obtain ⟨g, u, p⟩ := s
      simp only [segsOK, Bool.and_eq_true, Bool.not_eq_eq_eq_not, Bool.not_true,
        List.isEmpty_eq_false, List.all_eq_true, List.isEmpty_iff,
        decide_eq_true_eq] at h
      obtain ⟨hu, huw, hp, hpw, hnext, hgap, hrest⟩ := h
      show findPairs (g ++ (u ++ ('=' :: (p ++ assemble rest gLast)))) = _
      rw [findPairs_gap _ _ ((gapInert_iff _ _).mp hgap),
        findPairs_match u p (assemble rest gLast) hu huw hp hpw hnext,
        ih hrest]
      rfl

/-- C10: for any configuration decomposed into word-run pairs interleaved
with arbitrary inert gap text — pairs embedded in longer malformed
entries, separated by any delimiter text, or any number of pairs, not
only a comma-separated list — the scan extracts exactly those pairs in
order, and every extracted username is inserted into the credential
index. -/
theorem findPairs_extracts_and_inserts
    (segs : List (List Char × List Char × List Char)) (gLast : List Char)
    (h : segsOK segs gLast = true) :
    findPairs (assemble segs gLast) =
      segs.map (fun s => (s.2.1.asString, s.2.2.asString)) ∧
    ∀ realm : String, ∀ s ∈ segs,
      (usersMap (assemble segs gLast).asString realm s.2.1.asString).isSome =
        true := by
  have hext := findPairs_assemble segs gLast h
  refine ⟨hext, fun realm s hs => ?_⟩
  have hmem : (s.2.1.asString, s.2.2.asString) ∈
      findPairs ((assemble segs gLast).asString).toList := by
    rw [show ((assemble segs gLast).asString).toList = assemble segs gLast
        from rfl, hext]
    exact List.mem_map.mpr ⟨s, hs, rfl⟩
  obtain ⟨p', _, hlook⟩ := usersMap_mem_isSome
    ((assemble segs gLast).asString) realm s.2.1.asString s.2.2.asString hmem
  rw [hlook]
  rfl

/-- Witness for C10 on a config whose first pair is embedded in a longer
malformed entry: `bad-guy=x,ok=y` yields the pairs `guy=x` and `ok=y`. -/
theorem findPairs_extracts_and_inserts_witness :
    (segsOK [("bad-".toList, "guy".toList, "x".toList),
        (",".toList, "ok".toList, "y".toList)] [] = true ∧
      assemble [("bad-".toList, "guy".toList, "x".toList),
        (",".toList, "ok".toList, "y".toList)] [] = "bad-guy=x,ok=y".toList) ∧
    (findPairs (assemble [("bad-".toList, "guy".toList, "x".toList),
          (",".toList, "ok".toList, "y".toList)] []) =
        [("bad-".toList, "guy".toList, "x".toList),
          (",".toList, "ok".toList, "y".toList)].map
          (fun s => (s.2.1.asString, s.2.2.asString)) ∧
      ∀ realm : String,
        ∀ s ∈ [("bad-".toList, "guy".toList, "x".toList),
          (",".toList, "ok".toList, "y".toList)],
        (usersMap (assemble [("bad-".toList, "guy".toList, "x".toList),
            (",".toList, "ok".toList, "y".toList)] []).asString realm
          s.2.1.asString).isSome = true) :=
  ⟨⟨by decide, by decide⟩,
    findPairs_extracts_and_inserts
      [("bad-".toList, "guy".toList, "x".toList),
        (",".toList, "ok".toList, "y".toList)] [] (by decide)⟩

/-! ## Binding Responder (handleBindingRequest)

The Go source under `src/` (internal server code):
```
func handleBindingRequest(r Request, m *stun.Message) error {
    ip, port, err := ipnet.AddrIPPort(r.SrcAddr)
    if err != nil { return err }
    attrs := buildMsg(m.TransactionID, stun.BindingSuccess,
        &stun.XORMappedAddress{IP: ip, Port: port}, stun.Fingerprint)
    return buildAndSend(r.Conn, r.SrcAddr, attrs...)
}
```
The helpers `ipnet.AddrIPPort`, `buildMsg`, `buildAndSend` and the
pion/stun encoders are library code not under `src/`; they are modelled
from the spec at the byte level of the STUN wire format: a 20-byte header
(type, length, magic cookie, 12-byte transaction ID), an
XOR-MAPPED-ADDRESS attribute obfuscated by XOR with the magic cookie, and
a final FINGERPRINT attribute carrying CRC-32 of the preceding bytes XORed
with the fingerprint constant.  Sending is modelled by returning the
assembled bytes in `Except.ok`.
-/

/-- An IPv4 address as four byte values. -/
structure IPv4 where
  b0 : Nat
  b1 : Nat
  b2 : Nat
  b3 : Nat
deriving DecidableEq

/-- A transport address as the binding responder receives it
(`r.SrcAddr`): a UDP or TCP endpoint, or some other address type. -/
inductive Addr where
  | udp (ip : IPv4) (port : Nat)
  | tcp (ip : IPv4) (port : Nat)
  | other (description : String)
deriving DecidableEq

/-- Modelled from the spec: `ipnet.AddrIPPort` (internal/ipnet, not under
`src/`) decomposes a transport address into IP and port and fails on an
address that cannot be decomposed. -/
def addrIPPort : Addr → Except String (IPv4 × Nat)
  | .udp ip port => .ok (ip, port)
  | .tcp ip port => .ok (ip, port)
  | .other _ => .error "unknown address type"

/-- Big-endian 16-bit byte pair. -/
def be16 (n : Nat) : List Nat := [n / 256 % 256, n % 256]

/-- Big-endian 32-bit byte quadruple. -/
def be32 (n : Nat) : List Nat :=
  [n / 16777216 % 256, n / 65536 % 256, n / 256 % 256, n % 256]

/-- The STUN magic cookie 0x2112A442, as bytes. -/
def magicCookieBytes : List Nat := [0x21, 0x12, 0xA4, 0x42]

/-- The Binding Success Response message type (0x0101). -/
def bindingSuccessType : Nat := 0x0101

/-- One bit step of the reflected CRC-32 (IEEE polynomial 0xEDB88320). -/
def crc32Round (c : Nat) : Nat :=
  if c % 2 = 1 then (c / 2) ^^^ 0xEDB88320 else c / 2

/-- Fold one byte into the CRC-32 accumulator. -/
def crc32Byte (c b : Nat) : Nat := crc32Round^[8] (c ^^^ b % 256)

/-- CRC-32 (IEEE) of a byte list. -/
def crc32 (bs : List Nat) : Nat :=
  (bs.foldl crc32Byte 0xFFFFFFFF) ^^^ 0xFFFFFFFF

/-- The STUN FINGERPRINT XOR constant 0x5354554E. -/
def fingerprintXorValue : Nat := 0x5354554E

/-- Modelled from the spec: the XOR-MAPPED-ADDRESS attribute (pion/stun,
not under `src/`) for an IPv4 address — type 0x0020, length 8, family
0x01, port XORed with the top half of the magic cookie and the address
bytes XORed with the magic cookie. -/
def xorMappedAddressAttr (ip : IPv4) (port : Nat) : List Nat :=
  [0x00, 0x20, 0x00, 0x08, 0x00, 0x01] ++ be16 ((port % 65536) ^^^ 0x2112) ++
    [(ip.b0 % 256) ^^^ 0x21, (ip.b1 % 256) ^^^ 0x12,
      (ip.b2 % 256) ^^^ 0xA4, (ip.b3 % 256) ^^^ 0x42]

/-- Modelled from the spec: the response assembled by `buildMsg` — header
with Binding Success type, message length covering the two attributes,
magic cookie, the request's transaction ID, the XOR-MAPPED-ADDRESS
attribute, and a final FINGERPRINT attribute (type 0x8028, length 4)
whose value is the CRC-32 of all preceding bytes XORed with the
fingerprint constant (the header length already counts the FINGERPRINT
attribute, as the encoder writes it before computing the checksum). -/
def responseBody (transactionID : List Nat) (ip : IPv4) (port : Nat) :
    List Nat :=
  be16 bindingSuccessType ++ be16 20 ++ magicCookieBytes ++
    transactionID ++ xorMappedAddressAttr ip port

/-- The full response: the body followed by the FINGERPRINT attribute
computed over the body. -/
def buildResponse (transactionID : List Nat) (ip : IPv4) (port : Nat) :
    List Nat :=
  responseBody transactionID ip port ++
    ([0x80, 0x28, 0x00, 0x04] ++
      be32 (crc32 (responseBody transactionID ip port) ^^^ fingerprintXorValue))

/-- The binding responder: extract (IP, port) from the source address,
propagating the extraction error, else build and send the response
(the sent bytes are returned in `Except.ok`). -/
def handleBindingRequest (srcAddr : Addr) (transactionID : List Nat) :
    Except String (List Nat) :=
  match addrIPPort srcAddr with
  | .error e => .error e
  | .ok (ip, port) => .ok (buildResponse transactionID ip port)

/-- The message type encoded in the first two bytes of a STUN message. -/
def getMsgType (msg : List Nat) : Nat := msg.getD 0 0 * 256 + msg.getD 1 0

/-- The 12 transaction-ID bytes of a STUN message. -/
def getTransactionID (msg : List Nat) : List Nat := (msg.drop 8).take 12

/-- Decode the XOR-MAPPED-ADDRESS attribute found at offset 20 of a STUN
message, undoing the XOR obfuscation. -/
def decodeXorMappedAddress (msg : List Nat) : Option (IPv4 × Nat) :=
  let attr := (msg.drop 20).take 12
  if attr.take 6 = [0x00, 0x20, 0x00, 0x08, 0x00, 0x01] then
    some (⟨(attr.getD 8 0) ^^^ 0x21, (attr.getD 9 0) ^^^ 0x12,
        (attr.getD 10 0) ^^^ 0xA4, (attr.getD 11 0) ^^^ 0x42⟩,
      ((attr.getD 6 0) * 256 + attr.getD 7 0) ^^^ 0x2112)
  else none

/-- Check that the last 8 bytes of a message are a FINGERPRINT attribute
whose value is the CRC-32 of all preceding bytes XORed with the
fingerprint constant. -/
def checkFingerprint (msg : List Nat) : Bool :=
  decide (8 ≤ msg.length) &&
    decide (msg.drop (msg.length - 8) =
      [0x80, 0x28, 0x00, 0x04] ++
        be32 (crc32 (msg.take (msg.length - 8)) ^^^ fingerprintXorValue))

/-- The response bytes in cons-normal form: the fixed 8-byte prefix
(type 0x0101, length 20, magic cookie) followed by transaction ID and
attributes. -/
theorem buildResponse_eq (txid : List Nat) (ip : IPv4) (port : Nat) :
    buildResponse txid ip port =
      1 :: 1 :: 0 :: 20 :: 33 :: 18 :: 164 :: 66 ::
        (txid ++ (xorMappedAddressAttr ip port ++
          ([0x80, 0x28, 0x00, 0x04] ++
            be32 (crc32 (responseBody txid ip port) ^^^ fingerprintXorValue)))) := by
  unfold buildResponse
  nth_rewrite 1 [responseBody]
  simp [be16, bindingSuccessType, magicCookieBytes, List.append_assoc]

theorem buildResponse_transactionID (txid : List Nat) (ip : IPv4) (port : Nat)
    (htx : txid.length = 12) :
    getTransactionID (buildResponse txid ip port) = txid := by
  rw [buildResponse_eq]
  unfold getTransactionID
  rw [show ∀ l : List Nat,
      (1 :: 1 :: 0 :: 20 :: 33 :: 18 :: 164 :: 66 :: l).drop 8 = l from fun _ => rfl]
  exact List.take_left' htx

theorem buildResponse_msgType (txid : List Nat) (ip : IPv4) (port : Nat) :
    getMsgType (buildResponse txid ip port) = bindingSuccessType := by
  rw [buildResponse_eq]
  unfold getMsgType bindingSuccessType
  rw [show ∀ l : List Nat,
      (1 :: 1 :: 0 :: 20 :: 33 :: 18 :: 164 :: 66 :: l).getD 0 0 = 1 from fun _ => rfl]
  rw [show ∀ l : List Nat,
      (1 :: 1 :: 0 :: 20 :: 33 :: 18 :: 164 :: 66 :: l).getD 1 0 = 1 from fun _ => rfl]

theorem buildResponse_decodeXor (txid : List Nat) (ip : IPv4) (port : Nat)
    (htx : txid.length = 12) (hport : port < 65536)
    (h0 : ip.b0 < 256) (h1 : ip.b1 < 256) (h2 : ip.b2 < 256) (h3 : ip.b3 < 256) :
    decodeXorMappedAddress (buildResponse txid ip port) = some (ip, port) := by
  have hattr : ((buildResponse txid ip port).drop 20).take 12 =
      xorMappedAddressAttr ip port := by
    rw [buildResponse_eq]
    rw [show ∀ l : List Nat,
        (1 :: 1 :: 0 :: 20 :: 33 :: 18 :: 164 :: 66 :: l).drop 20 = l.drop 12 from
        fun _ => rfl]
    rw [List.drop_left' htx]
    exact List.take_left' (show (xorMappedAddressAttr ip port).length = 12 from rfl)
  have hb0 : ((ip.b0 % 256) ^^^ 0x21) ^^^ 0x21 = ip.b0 := by
    rw [Nat.xor_cancel_right, Nat.mod_eq_of_lt h0]
  have hb1 : ((ip.b1 % 256) ^^^ 0x12) ^^^ 0x12 = ip.b1 := by
    rw [Nat.xor_cancel_right, Nat.mod_eq_of_lt h1]
  have hb2 : ((ip.b2 % 256) ^^^ 0xA4) ^^^ 0xA4 = ip.b2 := by
    rw [Nat.xor_cancel_right, Nat.mod_eq_of_lt h2]
  have hb3 : ((ip.b3 % 256) ^^^ 0x42) ^^^ 0x42 = ip.b3 := by
    rw [Nat.xor_cancel_right, Nat.mod_eq_of_lt h3]
  have hxp : (port % 65536) ^^^ 0x2112 < 65536 := by
    have h2p : (65536 : Nat) = 2 ^ 16 := by norm_num
    have hm : port % 65536 < 2 ^ 16 := by
      rw [← h2p]
      exact Nat.mod_lt _ (by norm_num)
    have hc : (0x2112 : Nat) < 2 ^ 16 := by norm_num
    rw [h2p]
    exact Nat.xor_lt_two_pow hm hc
  have hp : ((((port % 65536) ^^^ 0x2112) / 256 % 256) * 256 +
      ((port % 65536) ^^^ 0x2112) % 256) ^^^ 0x2112 = port := by
    have hxp2 : (((port % 65536) ^^^ 0x2112) / 256 % 256) * 256 +
        ((port % 65536) ^^^ 0x2112) % 256 = (port % 65536) ^^^ 0x2112 := by
      omega
    rw [hxp2, Nat.xor_cancel_right, Nat.mod_eq_of_lt hport]
  have hdec : decodeXorMappedAddress (buildResponse txid ip port) =
      some (⟨((ip.b0 % 256) ^^^ 0x21) ^^^ 0x21, ((ip.b1 % 256) ^^^ 0x12) ^^^ 0x12,
          ((ip.b2 % 256) ^^^ 0xA4) ^^^ 0xA4, ((ip.b3 % 256) ^^^ 0x42) ^^^ 0x42⟩,
        ((((port % 65536) ^^^ 0x2112) / 256 % 256) * 256 +
          ((port % 65536) ^^^ 0x2112) % 256) ^^^ 0x2112) := by
    unfold decodeXorMappedAddress
    rw [hattr]
    rfl
  rw [hdec, hb0, hb1, hb2, hb3, hp]

theorem buildResponse_fingerprint (txid : List Nat) (ip : IPv4) (port : Nat)
    (htx : txid.length = 12) :
    checkFingerprint (buildResponse txid ip port) = true := by
  have hblen : (responseBody txid ip port).length = 32 := by
    simp [responseBody, xorMappedAddressAttr, be16, magicCookieBytes, htx]
  have hflen : ([0x80, 0x28, 0x00, 0x04] ++
      be32 (crc32 (responseBody txid ip port) ^^^ fingerprintXorValue)).length = 8 :=
    rfl
  unfold checkFingerprint buildResponse
  rw [List.length_append, hblen, hflen]
  rw [show (32 : Nat) + 8 - 8 = 32 from rfl]
  rw [List.drop_left' hblen, List.take_left' hblen]
  simp

/-- C2: for a Binding request with a decomposable source address, the
responder sends a response echoing the transaction ID, typed Binding
Success, whose XOR-MAPPED-ADDRESS decodes to exactly the source (IP,
port) and whose final attribute is a valid FINGERPRINT over the
preceding bytes. -/
theorem handleBindingRequest_ok (srcAddr : Addr) (transactionID : List Nat)
    (ip : IPv4) (port : Nat) (hsrc : addrIPPort srcAddr = .ok (ip, port))
    (htx : transactionID.length = 12) (hport : port < 65536)
    (h0 : ip.b0 < 256) (h1 : ip.b1 < 256) (h2 : ip.b2 < 256) (h3 : ip.b3 < 256) :
    ∃ msg, handleBindingRequest srcAddr transactionID = .ok msg ∧
      getTransactionID msg = transactionID ∧
      getMsgType msg = bindingSuccessType ∧
      decodeXorMappedAddress msg = some (ip, port) ∧
      checkFingerprint msg = true := by
  refine ⟨buildResponse transactionID ip port, ?_,
    buildResponse_transactionID transactionID ip port htx,
    buildResponse_msgType transactionID ip port,
    buildResponse_decodeXor transactionID ip port htx hport h0 h1 h2 h3,
    buildResponse_fingerprint transactionID ip port htx⟩
  unfold handleBindingRequest
  rw [hsrc]

/-- Witness for C2 at the spec's concrete example 192.0.2.1:5000. -/
theorem handleBindingRequest_ok_witness :
    (addrIPPort (Addr.udp ⟨192, 0, 2, 1⟩ 5000) = .ok (⟨192, 0, 2, 1⟩, 5000) ∧
      ([0, 1, 2, 3, 4, 5, 6, 7, 8, 9, 10, 11] : List Nat).length = 12) ∧
      ∃ msg, handleBindingRequest (Addr.udp ⟨192, 0, 2, 1⟩ 5000)
          [0, 1, 2, 3, 4, 5, 6, 7, 8, 9, 10, 11] = .ok msg ∧
        getTransactionID msg = [0, 1, 2, 3, 4, 5, 6, 7, 8, 9, 10, 11] ∧
        getMsgType msg = bindingSuccessType ∧
        decodeXorMappedAddress msg = some (⟨192, 0, 2, 1⟩, 5000) ∧
        checkFingerprint msg = true :=
  ⟨⟨rfl, by decide⟩,
    handleBindingRequest_ok (Addr.udp ⟨192, 0, 2, 1⟩ 5000)
      [0, 1, 2, 3, 4, 5, 6, 7, 8, 9, 10, 11] ⟨192, 0, 2, 1⟩ 5000
      rfl (by decide) (by decide)
      (by decide) (by decide) (by decide) (by decide)⟩

/-- C4: when the source address cannot be decomposed the extraction error
is returned unchanged and no response message is produced. -/
theorem handleBindingRequest_error (srcAddr : Addr) (transactionID : List Nat)
    (e : String) (h : addrIPPort srcAddr = .error e) :
    handleBindingRequest srcAddr transactionID = .error e ∧
      ∀ msg, handleBindingRequest srcAddr transactionID ≠ .ok msg := by
  unfold handleBindingRequest
  rw [h]
  exact ⟨rfl, fun msg hh => by simp at hh⟩

/-- Witness for C4 at a non-IP source address. -/
theorem handleBindingRequest_error_witness :
    (addrIPPort (Addr.other "unix") = .error "unknown address type") ∧
      (handleBindingRequest (Addr.other "unix")
          [0, 1, 2, 3, 4, 5, 6, 7, 8, 9, 10, 11] = .error "unknown address type" ∧
        ∀ msg, handleBindingRequest (Addr.other "unix")
            [0, 1, 2, 3, 4, 5, 6, 7, 8, 9, 10, 11] ≠ .ok msg) :=
  ⟨rfl,
    handleBindingRequest_error (Addr.other "unix")
      [0, 1, 2, 3, 4, 5, 6, 7, 8, 9, 10, 11] "unknown address type" rfl⟩

/-- C8: the permission handler and the binding responder are pure
functions of their inputs — two invocations with identical inputs yield
identical decisions and messages, as neither reads or writes any state. -/
theorem handlers_idempotent (clientAddr peerIP : String) (srcAddr : Addr)
    (transactionID : List Nat) :
    permissionHandler clientAddr peerIP = permissionHandler clientAddr peerIP ∧
      handleBindingRequest srcAddr transactionID =
        handleBindingRequest srcAddr transactionID :=
  ⟨rfl, rfl⟩

/-! ## Textual form of `net.IP` (for the bracketed-IPv6 admission claim)

Modelled from the spec: the "textual form of `peerIP`" is produced by the
Go standard library's `net.IP.String`, which is not part of this
repository's sources.  It renders `<nil>` for an empty address, dotted
decimal for IPv4 (including IPv4-mapped IPv6), `?` followed by hex for
invalid lengths, and canonical colon-hex with `::` zero-run compression
for IPv6.  No form ever begins with `'['` — brackets appear only in
`host:port` strings, never in an IP's own textual form. -/

/-- Decimal digits of `n`, most significant first (`fuel ≥ 1` step bound;
`n + 1` units always suffice since `n` shrinks by a factor 10). -/
def uitoaCore : Nat → Nat → List Char → List Char
  | 0, _, acc => acc
  | fuel + 1, n, acc =>
      if n < 10 then Nat.digitChar n :: acc
      else uitoaCore fuel (n / 10) (Nat.digitChar (n % 10) :: acc)

/-- Go's `uitoa`: decimal rendering of a byte value. -/
def uitoa (n : Nat) : List Char := uitoaCore (n + 1) n []

/-- Hexadecimal digits of `n` without leading zeros (`"0"` for zero),
as Go's `appendHex`. -/
def hexCore : Nat → Nat → List Char → List Char
  | 0, _, acc => acc
  | fuel + 1, n, acc =>
      if n < 16 then Nat.digitChar n :: acc
      else hexCore fuel (n / 16) (Nat.digitChar (n % 16) :: acc)

def hexNoPad (n : Nat) : List Char := hexCore (n + 1) n []

/-- Go's `hexString`: every byte as two hex digits. -/
def hexPairs (bs : List Nat) : List Char :=
  bs.foldr (fun b acc => Nat.digitChar (b / 16 % 16) :: Nat.digitChar (b % 16) :: acc) []

/-- Go's `IP.To4`: a 4-byte address, or the tail of an IPv4-mapped
16-byte address. -/
def toIP4 : List Nat → Option (Nat × Nat × Nat × Nat)
  | [a, b, c, d] => some (a, b, c, d)
  | [0, 0, 0, 0, 0, 0, 0, 0, 0, 0, 255, 255, a, b, c, d] => some (a, b, c, d)
  | _ => none

/-- The eight 16-bit groups of a 16-byte IPv6 address. -/
def ip6Groups : List Nat → List Nat
  | [b0, b1, b2, b3, b4, b5, b6, b7, b8, b9, b10, b11, b12, b13, b14, b15] =>
      [b0 * 256 + b1, b2 * 256 + b3, b4 * 256 + b5, b6 * 256 + b7,
        b8 * 256 + b9, b10 * 256 + b11, b12 * 256 + b13, b14 * 256 + b15]
  | _ => []

/-- Length of the run of zero groups starting at index `i`. -/
def zeroRunFrom (gs : List Nat) (i : Nat) : Nat :=
  ((gs.drop i).takeWhile (fun g => g == 0)).length

/-- The leftmost longest run of zero groups, as a half-open index pair
(`(0, 0)` meaning none found; strict improvement keeps the leftmost). -/
def bestZeroRun (gs : List Nat) : Nat × Nat :=
  (List.range gs.length).foldl
    (fun e i =>
      let j := i + zeroRunFrom gs i
      if i < j ∧ e.2 - e.1 < j - i then (i, j) else e)
    (0, 0)

/-- The `::` compression window: only a run of at least two zero groups
is compressed. -/
def zeroRun (gs : List Nat) : Option (Nat × Nat) :=
  if (bestZeroRun gs).2 - (bestZeroRun gs).1 ≤ 1 then none
  else some (bestZeroRun gs)

/-- The rendering loop of `IP.String` for IPv6: groups in hex separated
by `':'`, with the compressed run written `::`. -/
def renderLoop (gs : List Nat) (e0 e1 : Nat) : Nat → Nat → List Char
  | 0, _ => []
  | fuel + 1, i =>
      if gs.length ≤ i then []
      else if i = e0 then
        ':' :: ':' ::
          (if gs.length ≤ e1 then []
            else hexNoPad (gs.getD e1 0) ++ renderLoop gs e0 e1 fuel (e1 + 1))
      else
        (if 0 < i then [':'] else []) ++ hexNoPad (gs.getD i 0) ++
          renderLoop gs e0 e1 fuel (i + 1)

/-- Canonical IPv6 rendering (a sentinel index beyond the groups stands
for Go's `e0 = -1`, "no compressed run"). -/
def ip6String (bs : List Nat) : List Char :=
  match zeroRun (ip6Groups bs) with
  | some e => renderLoop (ip6Groups bs) e.1 e.2 ((ip6Groups bs).length + 1) 0
  | none => renderLoop (ip6Groups bs) ((ip6Groups bs).length + 1)
      ((ip6Groups bs).length + 1) ((ip6Groups bs).length + 1) 0

/-- Modelled from the spec: Go's `net.IP.String`, the textual form of
`peerIP` compared against the client host by the permission handler. -/
def ipString (bs : List Nat) : String :=
  if bs = [] then "<nil>"
  else
    match toIP4 bs with
    | some (a, b, c, d) =>
        (uitoa a ++ ('.' :: (uitoa b ++ ('.' :: (uitoa c ++ ('.' :: uitoa d)))))).asString
    | none =>
        if bs.length ≠ 16 then ('?' :: hexPairs bs).asString
        else (ip6String bs).asString

theorem uitoaCore_head (fuel n : Nat) (acc : List Char) :
    ∃ m, m < 10 ∧ ∃ rest, uitoaCore (fuel + 1) n acc = Nat.digitChar m :: rest := by
  induction fuel generalizing n acc with
  | zero =>
      by_cases h : n < 10
      · exact ⟨n, h, acc, by rw [uitoaCore, if_pos h]⟩
      · exact ⟨n % 10, Nat.mod_lt _ (by norm_num), acc, by rw [uitoaCore, if_neg h]; rfl⟩
  | succ f ih =>
      by_cases h : n < 10
      · exact ⟨n, h, acc, by rw [uitoaCore, if_pos h]⟩
      · obtain ⟨m, hm, rest, hr⟩ := ih (n / 10) (Nat.digitChar (n % 10) :: acc)
        exact ⟨m, hm, rest, by rw [uitoaCore, if_neg h]; exact hr⟩

theorem hexCore_head (fuel n : Nat) (acc : List Char) :
    ∃ m, m < 16 ∧ ∃ rest, hexCore (fuel + 1) n acc = Nat.digitChar m :: rest := by
  induction fuel generalizing n acc with
  | zero =>
      by_cases h : n < 16
      · exact ⟨n, h, acc, by rw [hexCore, if_pos h]⟩
      · exact ⟨n % 16, Nat.mod_lt _ (by norm_num), acc, by rw [hexCore, if_neg h]; rfl⟩
  | succ f ih =>
      by_cases h : n < 16
      · exact ⟨n, h, acc, by rw [hexCore, if_pos h]⟩
      · obtain ⟨m, hm, rest, hr⟩ := ih (n / 16) (Nat.digitChar (n % 16) :: acc)
        exact ⟨m, hm, rest, by rw [hexCore, if_neg h]; exact hr⟩

theorem renderLoop_head (gs : List Nat) (e0 e1 f : Nat) :
    (renderLoop gs e0 e1 (f + 1) 0).head? = none ∨
    (renderLoop gs e0 e1 (f + 1) 0).head? = some ':' ∨
    ∃ m, m < 16 ∧ (renderLoop gs e0 e1 (f + 1) 0).head? = some (Nat.digitChar m) := by
  rw [renderLoop]
  by_cases hg : gs.length ≤ 0
  · rw [if_pos hg]
    exact Or.inl rfl
  · rw [if_neg hg]
    by_cases he : 0 = e0
    · rw [if_pos he]
      exact Or.inr (Or.inl rfl)
    · rw [if_neg he, if_neg (lt_irrefl 0), List.nil_append]
      obtain ⟨m, hm, rest, hh⟩ := hexCore_head (gs.getD 0 0) (gs.getD 0 0) []
      refine Or.inr (Or.inr ⟨m, hm, ?_⟩)
      rw [show hexNoPad (gs.getD 0 0) = hexCore (gs.getD 0 0 + 1) (gs.getD 0 0) []
          from rfl, hh, List.cons_append]
      rfl

theorem digitChar_ne_bracket (m : Nat) (hm : m < 16) : Nat.digitChar m ≠ '[' := by
  have h : ∀ i : Fin 16, Nat.digitChar i.val ≠ '[' := by decide
  exact h ⟨m, hm⟩

/-- The textual form of an IP never begins with `'['`. -/
theorem ipString_head_ne_bracket (bs : List Nat) :
    (ipString bs).toList.head? ≠ some '[' := by
  unfold ipString
  by_cases hnil : bs = []
  · rw [if_pos hnil]
    decide
  · rw [if_neg hnil]
    cases h4 : toIP4 bs with
    | some q =>
        obtain ⟨a, b, c, d⟩ := q
        dsimp only
        obtain ⟨m, hm, rest, hu⟩ := uitoaCore_head a a []
        intro hc
        have hc' : (uitoaCore (a + 1) a [] ++
            ('.' :: (uitoa b ++ ('.' :: (uitoa c ++ ('.' :: uitoa d)))))).head? =
            some '[' := hc
        rw [hu, List.cons_append, List.head?_cons] at hc'
        have hmch : Nat.digitChar m = '[' := by injection hc'
        exact absurd hmch (digitChar_ne_bracket m (by omega))
    | none =>
        dsimp only
        by_cases hlen : bs.length ≠ 16
        · rw [if_pos hlen]
          intro hc
          have hc' : some '?' = some '[' := hc
          exact absurd hc' (by decide)
        · rw [if_neg hlen]
          unfold ip6String
          cases hz : zeroRun (ip6Groups bs) with
          | some e =>
              dsimp only
              intro hc
              have hc' : (renderLoop (ip6Groups bs) e.1 e.2
                  ((ip6Groups bs).length + 1) 0).head? = some '[' := hc
              rcases renderLoop_head (ip6Groups bs) e.1 e.2 ((ip6Groups bs).length)
                with h | h | ⟨m, hm, h⟩
              · rw [h] at hc'
                exact Option.noConfusion hc'
              · rw [h] at hc'
                exact absurd hc' (by decide)
              · rw [h] at hc'
                have hmch : Nat.digitChar m = '[' := by injection hc'
                exact absurd hmch (digitChar_ne_bracket m hm)
          | none =>
              dsimp only
              intro hc
              have hc' : (renderLoop (ip6Groups bs) ((ip6Groups bs).length + 1)
                  ((ip6Groups bs).length + 1)
                  ((ip6Groups bs).length + 1) 0).head? = some '[' := hc
              rcases renderLoop_head (ip6Groups bs) ((ip6Groups bs).length + 1)
                  ((ip6Groups bs).length + 1) ((ip6Groups bs).length)
                with h | h | ⟨m, hm, h⟩
              · rw [h] at hc'
                exact Option.noConfusion hc'
              · rw [h] at hc'
                exact absurd hc' (by decide)
              · rw [h] at hc'
                have hmch : Nat.digitChar m = '[' := by injection hc'
                exact absurd hmch (digitChar_ne_bracket m hm)

/-- C9: a bracketed client address (an IPv6 `[host]:port` form) is always
denied: the split on the first `':'` yields a host beginning with `'['`,
which can never equal the textual form of any IP. -/
theorem permissionHandler_denies_bracketed (rest : List Char) (peer : List Nat) :
    permissionHandler (String.mk ('[' :: rest)) (ipString peer) = false := by
  cases hpm : permissionHandler (String.mk ('[' :: rest)) (ipString peer) with
  | false => rfl
  | true =>
      exfalso
      have hhost := (permissionHandler_grants_iff _ _).mp hpm
      have hl := congrArg String.toList hhost
      rw [show (hostComponent (String.mk ('[' :: rest))).toList =
          ('[' :: rest).takeWhile (fun ch => ch ≠ ':') from rfl] at hl
      rw [List.takeWhile_cons_of_pos (by decide)] at hl
      have hhead : (ipString peer).toList.head? = some '[' := by
        rw [← hl]
        rfl
      exact ipString_head_ne_bracket peer hhead

end TurnPermFilter
